import Mathlib

/-!
Shallow embedding of the per-page layout reconstruction engine of
`src/utils/nativePdfToDocx.ts` (function `convertNativePdfToDocx` and its
inner `processLinesToChildren`).

Modelling conventions:
* JavaScript numbers are modelled by `ℚ`.  The source computes a font size
  as `Math.sqrt(transform[0]**2 + transform[1]**2)`; to keep every
  definition executable we carry the *square* of that font size
  (`fontSizeSq`) and encode each real comparison against a square root by
  its exact squared equivalent (the bridging lemmas `abs_lt_half_sqrt_iff`
  and `mul_sqrt_lt_iff` below prove the encodings equal the real-number
  comparisons).
* The text-token stream of one page is modelled; image items are appended
  outside the layout engine in the source (and the engine's `allItems`
  list contains only text items), so they do not appear here.
* `Array.prototype.sort` is modelled by Mathlib's stable `insertionSort`
  on the comparator's `≤ 0` relation.  The source's outer comparator
  (5pt fuzz on y) is not transitive, so its result is
  implementation-defined in JavaScript; the inner per-line comparator
  `(a,b) => a.x - b.x` is a genuine total preorder and every stable sort
  agrees on it up to ties.
* In the source, tokens whose text is empty or whitespace-only are
  skipped inside the clustering loop (`if (!item.str.trim()) continue`);
  these are the only tokens ever dropped.
-/

namespace PdfLayout

open List

/-- A positioned text token: `str` is the token text, `a`/`b` are the
`transform[0]`/`transform[1]` entries (horizontal scale/shear), `x`/`y`
are `transform[4]`/`transform[5]` (baseline position), `width` is the
render width. -/
structure Tok where
  str : String
  a : ℚ
  b : ℚ
  x : ℚ
  y : ℚ
  width : ℚ
deriving DecidableEq

/-- Square of the derived font size `Math.sqrt(a**2 + b**2)` of a token. -/
def fontSizeSq (t : Tok) : ℚ := t.a ^ 2 + t.b ^ 2

/-- Keep-condition of the clustering loop: the source skips an item when
`!item.str.trim()`, i.e. when the trimmed text is empty. -/
def nonBlank (t : Tok) : Bool := decide (t.str.trim ≠ "")

/-- The page-level sort comparator
`(a, b) => { const yDiff = b.transform[5] - a.transform[5];
if (Math.abs(yDiff) > 5) return yDiff; return a.transform[4] - b.transform[4]; }`. -/
def jsCmp (p q : Tok) : ℚ := if 5 < |q.y - p.y| then q.y - p.y else p.x - q.x

/-- `p` sorts no later than `q` under the page-level comparator. -/
def tokLe (p q : Tok) : Prop := jsCmp p q ≤ 0

instance : DecidableRel tokLe := fun p q => by unfold tokLe jsCmp; infer_instance

/-- The within-line sort comparator `(a, b) => a.transform[4] - b.transform[4]`. -/
def xLe (p q : Tok) : Prop := p.x ≤ q.x

instance : DecidableRel xLe := fun p q => by unfold xLe; infer_instance

instance : IsTotal Tok xLe := ⟨fun p q => le_total p.x q.x⟩

instance : IsTrans Tok xLe := ⟨fun _ _ _ h h' => le_trans h h'⟩

/-- One clustered line: `y` is the source's `currentLineY` at close time
(the y of the last token added to the cluster), `items` the x-sorted
tokens.  The source's `isHeader`/`isFooter` flags are computed by the
predicates `isHeaderLine`/`isFooterLine` below, and its `height` field is
never read after being written, so neither is stored. -/
structure Line where
  y : ℚ
  items : List Tok
deriving DecidableEq

/-- State of the clustering loop: `currentLineY` (sentinel `-1` before the
first kept token), `currentLineItems`, and the lines closed so far. -/
structure ClusterState where
  curY : ℚ
  cur : List Tok
  lines : List Line
deriving DecidableEq

/-- One iteration of the clustering loop.  The source condition
`Math.abs(currentLineY - y) < h * 0.5` with `h = Math.sqrt(a**2 + b**2)`
is encoded by its exact squared equivalent `4·(curY − y)² < a² + b²`. -/
def clusterStep (s : ClusterState) (t : Tok) : ClusterState :=
  if t.str.trim = "" then s
  else if s.curY = -1 ∨ 4 * (s.curY - t.y) ^ 2 < fontSizeSq t then
    { curY := t.y, cur := s.cur ++ [t], lines := s.lines }
  else
    { curY := t.y, cur := [t],
      lines := s.lines ++ [{ y := s.curY, items := List.insertionSort xLe s.cur }] }

/-- Post-loop flush: `if (currentLineItems.length > 0) { sort; push }`. -/
def clusterFinish (s : ClusterState) : List Line :=
  if s.cur = [] then s.lines
  else s.lines ++ [{ y := s.curY, items := List.insertionSort xLe s.cur }]

/-- The Line Clusterer: sort all items with the page-level comparator,
then walk them through the clustering loop. -/
def linesOf (toks : List Tok) : List Line :=
  clusterFinish ((List.insertionSort tokLe toks).foldl clusterStep ⟨-1, [], []⟩)

/-- Header flag: `line.y > pageHeight * 0.90`. -/
def isHeaderLine (H : ℚ) (l : Line) : Bool := decide (H * 0.90 < l.y)

/-- Footer flag: `line.y < pageHeight * 0.10`. -/
def isFooterLine (H : ℚ) (l : Line) : Bool := decide (l.y < H * 0.10)

/-- The column-boundary test between two adjacent tokens of a line, from
`processLinesToChildren`:
`charWidth = prev.width > 0 ? prev.width / prev.str.length : fontSize * 0.5;`
`prevEnd  = prev.transform[4] + (prev.width || prev.str.length * charWidth);`
`gap      = curr.transform[4] - prevEnd;  gap > charWidth * 3`.
The three branches below are the cases `width > 0`, `width = 0` (falsy, so
`prevEnd` uses `len · fontSize/2` and the comparison
`gap > (3/2)·√s` is encoded as `0 < g₀ ∧ (len+3)²·s < 4·g₀²` for
`g₀ = curr.x − prev.x`), and `width < 0` (truthy, `prevEnd = x + width`,
`gap > (3/2)·√s` encoded as `0 < gap ∧ 9·s < 4·gap²`).  Tokens reaching
this test always have nonempty trimmed text, hence `len ≥ 1`. -/
def columnBreak (prev curr : Tok) : Bool :=
  let s := fontSizeSq prev
  let len : ℚ := (prev.str.length : ℚ)
  if 0 < prev.width then
    decide ((prev.width / len) * 3 < curr.x - (prev.x + prev.width))
  else if prev.width = 0 then
    decide (0 < curr.x - prev.x ∧ (len + 3) ^ 2 * s < 4 * (curr.x - prev.x) ^ 2)
  else
    decide (0 < curr.x - (prev.x + prev.width) ∧
      9 * s < 4 * (curr.x - (prev.x + prev.width)) ^ 2)

/-- Accumulating walk of the column loop: `prev` is the previous item,
`cur` the current (nonempty) column, `acc` the closed columns. -/
def columnsAux (prev : Tok) (cur : List Tok) (acc : List (List Tok)) :
    List Tok → List (List Tok)
  | [] => acc ++ [cur]
  | t :: ts =>
    if columnBreak prev t then columnsAux t [t] (acc ++ [cur]) ts
    else columnsAux t (cur ++ [t]) acc ts

/-- The Column Segmenter for one line (`columns` in the source).  The
source would fault on an empty line (`items[0]` is `undefined`); lines
are never empty, and the `[]` case returns `[]`. -/
def columnsOf : List Tok → List (List Tok)
  | [] => []
  | h :: ts => columnsAux h [h] [] ts

/-- First token of a column; the `[]` case is unreachable (columns are
nonempty). -/
def headTok : List Tok → Tok
  | [] => { str := "", a := 0, b := 0, x := 0, y := 0, width := 0 }
  | t :: _ => t

def spaceStr : String := " "

/-- Paragraph text tail: continues the fold with `lastX` set.  Inserts a
single space before the next token when `lastX !== -1 && gap > 2` with
`gap = it.transform[4] - lastX`, then advances
`lastX = it.transform[4] + (it.width || 0)` (which equals `x + width`
since `0 || 0` is `0`). -/
def paraTextGo (lastX : ℚ) : List Tok → String
  | [] => ""
  | t :: ts =>
    (if lastX ≠ -1 ∧ 2 < t.x - lastX then spaceStr else "") ++ t.str ++
      paraTextGo (t.x + t.width) ts

/-- Paragraph text of a single-column line (the `fullText` fold of the
source); the first token never gets a leading space (`idx > 0` guard). -/
def paraText : List Tok → String
  | [] => ""
  | t :: ts => t.str ++ paraTextGo (t.x + t.width) ts

/-- One grid cell: the tokens it was built from, its text
(`colItems.map(it => it.str).join(' ')`), its width share
(`100 / columns.length` percent) and the square of its font size
(`Math.sqrt` of the first token's `a² + b²`). -/
structure Cell where
  toks : List Tok
  text : String
  widthShare : ℚ
  fsq : ℚ
deriving DecidableEq

/-- An output block: a paragraph (token list, joined text, indent in
twips `Math.round(startX * 15)`, squared font size of the first token) or
a borderless grid row. -/
inductive Block where
  | paragraph (toks : List Tok) (text : String) (indent : ℤ) (fsq : ℚ)
  | gridRow (cells : List Cell)
deriving DecidableEq

/-- The Block Assembler for one line (`processLinesToChildren` body):
`columns.length > 1` yields one grid row, otherwise one paragraph from
`columns[0]`. -/
def blocksOfLine (items : List Tok) : List Block :=
  match items with
  | [] => []
  | h :: ts =>
    let cols := columnsOf (h :: ts)
    if 1 < cols.length then
      [Block.gridRow (cols.map fun c =>
        { toks := c, text := String.intercalate spaceStr (c.map Tok.str),
          widthShare := 100 / (cols.length : ℚ), fsq := fontSizeSq (headTok c) })]
    else
      [Block.paragraph (cols.headD []) (paraText (cols.headD []))
        (round ((headTok (cols.headD [])).x * 15))
        (fontSizeSq (headTok (cols.headD [])))]

/-- One assembled page. -/
structure Page where
  headerBlocks : List Block
  bodyBlocks : List Block
  footerBlocks : List Block
deriving DecidableEq

/-- The full per-page pipeline: cluster into lines, split by the
header/footer flags, and assemble blocks per group
(`processLinesToChildren` applied to the three filtered line lists). -/
def pageOf (H : ℚ) (toks : List Tok) : Page :=
  let lines := linesOf toks
  { headerBlocks := (lines.filter fun l => isHeaderLine H l).flatMap
      fun l => blocksOfLine l.items
    bodyBlocks := (lines.filter fun l => !isHeaderLine H l && !isFooterLine H l).flatMap
      fun l => blocksOfLine l.items
    footerBlocks := (lines.filter fun l => isFooterLine H l).flatMap
      fun l => blocksOfLine l.items }

/-- Token texts contained in a block, in order. -/
def blockTexts : Block → List String
  | Block.paragraph toks _ _ _ => toks.map Tok.str
  | Block.gridRow cells => cells.flatMap fun c => c.toks.map Tok.str

/-- All token texts of a page, headers first, then body, then footers. -/
def pageTexts (p : Page) : List String :=
  p.headerBlocks.flatMap blockTexts ++ p.bodyBlocks.flatMap blockTexts ++
    p.footerBlocks.flatMap blockTexts

/-- Cell texts of a block (paragraph text, or the grid row's cell texts). -/
def cellTextsOf : Block → List String
  | Block.paragraph _ t _ _ => [t]
  | Block.gridRow cells => cells.map Cell.text

/-- Modelled from the spec (for comparison with `columnBreak`): the
spec's column-boundary rule
`gap > max(absoluteThreshold, charWidth × gapMultiplier)` with defaults
`absoluteThreshold = 20`, `gapMultiplier = 3` and
`charWidth = prev.width / max(1, prev.text.length)`. -/
def specColumnBreak (prev curr : Tok) : Bool :=
  decide (max 20 ((prev.width / max 1 (prev.str.length : ℚ)) * 3) <
    curr.x - (prev.x + prev.width))

/-! Bridging lemmas: the squared rational encodings used in `clusterStep`
and `columnBreak` agree with the real-number comparisons the source
performs on `Math.sqrt` values. -/

/-- `|d| < √s · 0.5` (the clustering tolerance test) is exactly
`4·d² < s`. -/
theorem abs_lt_half_sqrt_iff (d s : ℚ) :
    |(d : ℝ)| < Real.sqrt (s : ℝ) * (1 / 2) ↔ 4 * d ^ 2 < s := by
  have h2 : |(d : ℝ)| < Real.sqrt (s : ℝ) * (1 / 2) ↔ 2 * |(d : ℝ)| < Real.sqrt s := by
    constructor <;> intro h <;> nlinarith [h]
  rw [h2]
  rw [Real.lt_sqrt (by positivity)]
  rw [show (2 * |(d : ℝ)|) ^ 2 = 4 * d ^ 2 by rw [mul_pow]; rw [sq_abs]; ring]
  constructor <;> intro h
  · exact_mod_cast h
  · exact_mod_cast h

/-- `c · √s < g` (the column-gap test against a multiple of the font
size) is exactly `0 < g ∧ c² · s < g²`, for `c > 0`, `s ≥ 0`. -/
theorem mul_sqrt_lt_iff (c g s : ℚ) (hc : (0 : ℚ) < c) :
    (c : ℝ) * Real.sqrt (s : ℝ) < g ↔ 0 < g ∧ c ^ 2 * s < g ^ 2 := by
  have hc2 : (0 : ℝ) < (c : ℝ) ^ 2 := by positivity
  constructor
  · intro h
    have hg : (0 : ℝ) < g := lt_of_le_of_lt (by positivity) h
    have h1 : Real.sqrt (s : ℝ) < (g : ℝ) / c := by
      rw [lt_div_iff₀ (by exact_mod_cast hc)]; linarith [h]
    rw [Real.sqrt_lt' (by positivity)] at h1
    have h1' : (s : ℝ) * (c : ℝ) ^ 2 < (g : ℝ) ^ 2 := by
      rw [div_pow] at h1
      exact (lt_div_iff₀ hc2).mp h1
    have h2 : (c : ℝ) ^ 2 * (s : ℝ) < (g : ℝ) ^ 2 := by
      rw [mul_comm]; exact h1'
    exact ⟨by exact_mod_cast hg, by exact_mod_cast h2⟩
  · rintro ⟨hg, hlt⟩
    have hg' : (0 : ℝ) < g := by exact_mod_cast hg
    have hlt' : (c : ℝ) ^ 2 * s < (g : ℝ) ^ 2 := by exact_mod_cast hlt
    have h1 : (s : ℝ) < ((g : ℝ) / c) ^ 2 := by
      rw [div_pow, lt_div_iff₀ (by positivity)]; linarith
    have h2 : Real.sqrt (s : ℝ) < (g : ℝ) / c := by
      rw [Real.sqrt_lt' (by positivity)]; exact h1
    calc (c : ℝ) * Real.sqrt s < c * ((g : ℝ) / c) :=
          mul_lt_mul_of_pos_left h2 (by exact_mod_cast hc)
      _ = g := by field_simp

/-! Column segmentation lemmas. -/

/-- The column walk only regroups: flattening its output returns the
closed columns, the running column and the unwalked rest, in order. -/
theorem columnsAux_flatten (rest : List Tok) :
    ∀ (prev : Tok) (cur : List Tok) (acc : List (List Tok)),
      (columnsAux prev cur acc rest).flatten = acc.flatten ++ cur ++ rest := by
  induction rest with
  | nil => intro prev cur acc; simp [columnsAux]
  | cons t ts ih =>
    intro prev cur acc
    by_cases hb : columnBreak prev t
    · rw [columnsAux, if_pos hb, ih]
      simp [List.flatten_append]
    · rw [columnsAux, if_neg hb, ih]
      simp

/-- The Column Segmenter partitions the line: no token is dropped,
duplicated or reordered. -/
theorem columnsOf_flatten (l : List Tok) : (columnsOf l).flatten = l := by
  cases l with
  | nil => rfl
  | cons h ts => rw [columnsOf, columnsAux_flatten]; rfl

/-- A nonempty line yields at least one column. -/
theorem columnsOf_ne_nil {l : List Tok} (h : l ≠ []) : columnsOf l ≠ [] := by
  intro hc
  have := columnsOf_flatten l
  rw [hc] at this
  exact h this.symm

/-- A line with a single column: that column is the whole line. -/
theorem columnsOf_single {l : List Tok} (h : l ≠ [])
    (h1 : ¬ 1 < (columnsOf l).length) : columnsOf l = [l] := by
  rcases hc : columnsOf l with _ | ⟨c, cs⟩
  · exact absurd hc (columnsOf_ne_nil h)
  · rcases cs with _ | ⟨c', cs'⟩
    · have hfl := columnsOf_flatten l
      rw [hc] at hfl
      simp at hfl
      rw [hfl]
    · rw [hc] at h1
      simp at h1

/-- Between-columns relation: the break test holds from the last token of
one column to the first token of the next. -/
def betweenBreak (c d : List Tok) : Prop :=
  ∃ p q, c.getLast? = some p ∧ d.head? = some q ∧ columnBreak p q = true

/-- Invariant of the column walk: every produced column is nonempty with
no internal break, and consecutive columns are separated by a break. -/
theorem columnsAux_chain (rest : List Tok) :
    ∀ (prev : Tok) (cur : List Tok) (acc : List (List Tok)),
      cur.getLast? = some prev →
      List.Chain' (fun a b => columnBreak a b = false) cur →
      (∀ c ∈ acc, c ≠ [] ∧ List.Chain' (fun a b => columnBreak a b = false) c) →
      List.Chain' betweenBreak (acc ++ [cur]) →
      (∀ c ∈ columnsAux prev cur acc rest, c ≠ [] ∧
        List.Chain' (fun a b => columnBreak a b = false) c) ∧
      List.Chain' betweenBreak (columnsAux prev cur acc rest) := by
  induction rest with
  | nil =>
    intro prev cur acc hlast hchain hacc hbetween
    rw [columnsAux]
    refine ⟨?_, hbetween⟩
    intro c hc
    rw [List.mem_append] at hc
    rcases hc with hc | hc
    · exact hacc c hc
    · simp at hc
      subst hc
      exact ⟨fun hnil => by simp [hnil] at hlast, hchain⟩
  | cons t ts ih =>
    intro prev cur acc hlast hchain hacc hbetween
    rw [columnsAux]
    by_cases hb : columnBreak prev t
    · rw [if_pos hb]
      refine ih t [t] (acc ++ [cur]) rfl (List.chain'_singleton t) ?_ ?_
      · intro c hc
        rw [List.mem_append] at hc
        rcases hc with hc | hc
        · exact hacc c hc
        · simp at hc
          subst hc
          exact ⟨fun hnil => by simp [hnil] at hlast, hchain⟩
      · rw [List.chain'_append]
        refine ⟨hbetween, List.chain'_singleton _, ?_⟩
        intro x hx y hy
        rw [List.getLast?_concat] at hx
        simp at hx hy
        subst hx
        subst hy
        exact ⟨prev, t, hlast, rfl, hb⟩
    · rw [if_neg hb]
      refine ih t (cur ++ [t]) acc (List.getLast?_concat cur) ?_ hacc ?_
      · rw [List.chain'_append]
        refine ⟨hchain, List.chain'_singleton _, ?_⟩
        intro x hx y hy
        rw [hlast] at hx
        simp at hx hy
        subst hx
        subst hy
        simpa using hb
      · rw [List.chain'_append] at hbetween ⊢
        refine ⟨hbetween.1, List.chain'_singleton _, ?_⟩
        intro x hx y hy
        simp at hy
        subst hy
        have hlink := hbetween.2.2 x hx cur (by simp)
        obtain ⟨p, q, hp, hq, hbk⟩ := hlink
        refine ⟨p, q, hp, ?_, hbk⟩
        rcases cur with _ | ⟨c0, cur'⟩
        · simp at hq
        · simpa using hq

/-- Tokens of a line list, in order. -/
def linesToks (ls : List Line) : List Tok := ls.flatMap Line.items

/-- Walking any token sequence through the clustering loop and flushing
conserves exactly the tokens with nonblank text. -/
theorem cluster_foldl_perm (ts : List Tok) :
    ∀ s : ClusterState,
      linesToks (clusterFinish (ts.foldl clusterStep s)) ~
        linesToks s.lines ++ s.cur ++ ts.filter nonBlank := by
  induction ts with
  | nil =>
    intro s
    rw [List.foldl_nil, List.filter_nil, List.append_nil]
    unfold clusterFinish
    by_cases h : s.cur = []
    · rw [if_pos h, h, List.append_nil]
    · rw [if_neg h]
      unfold linesToks
      rw [List.flatMap_append]
      simp only [List.flatMap_cons, List.flatMap_nil, List.append_nil]
      exact List.Perm.append_left _ (by simpa using List.perm_insertionSort xLe s.cur)
  | cons t ts ih =>
    intro s
    rw [List.foldl_cons]
    by_cases hblank : t.str.trim = ""
    · have hstep : clusterStep s t = s := by rw [clusterStep, if_pos hblank]
      have hnb : nonBlank t = false := by simp [nonBlank, hblank]
      rw [hstep, List.filter_cons, hnb]
      simpa using ih s
    · have hnb : nonBlank t = true := by simp [nonBlank, hblank]
      have hfc : (t :: ts).filter nonBlank = t :: ts.filter nonBlank := by
        rw [List.filter_cons, hnb]
        simp
      rw [hfc]
      by_cases htol : s.curY = -1 ∨ 4 * (s.curY - t.y) ^ 2 < fontSizeSq t
      · have hstep : clusterStep s t =
            { curY := t.y, cur := s.cur ++ [t], lines := s.lines } := by
          rw [clusterStep, if_neg hblank, if_pos htol]
        rw [hstep]
        refine (ih _).trans (List.Perm.of_eq ?_)
        simp [List.append_assoc]
      · have hstep : clusterStep s t = ClusterState.mk t.y [t]
            (s.lines ++ [{ y := s.curY, items := List.insertionSort xLe s.cur }]) := by
          rw [clusterStep, if_neg hblank, if_neg htol]
        rw [hstep]
        refine (ih _).trans ?_
        unfold linesToks
        rw [List.flatMap_append]
        simp only [List.flatMap_cons, List.flatMap_nil, List.append_nil]
        have hperm : List.insertionSort xLe s.cur ++ ([t] ++ ts.filter nonBlank) ~
            s.cur ++ (t :: ts.filter nonBlank) :=
          List.Perm.append_right _ (List.perm_insertionSort xLe s.cur)
        calc (s.lines.flatMap Line.items ++ List.insertionSort xLe s.cur) ++ [t] ++
              ts.filter nonBlank
            = s.lines.flatMap Line.items ++
              (List.insertionSort xLe s.cur ++ ([t] ++ ts.filter nonBlank)) := by
              simp [List.append_assoc]
          _ ~ s.lines.flatMap Line.items ++ (s.cur ++ (t :: ts.filter nonBlank)) :=
              List.Perm.append_left _ hperm
          _ = s.lines.flatMap Line.items ++ s.cur ++ (t :: ts.filter nonBlank) := by
              simp [List.append_assoc]

/-- The Line Clusterer conserves exactly the nonblank tokens. -/
theorem linesOf_toks_perm (toks : List Tok) :
    linesToks (linesOf toks) ~ toks.filter nonBlank := by
  unfold linesOf
  have h := cluster_foldl_perm (List.insertionSort tokLe toks) ⟨-1, [], []⟩
  simp only [linesToks, List.flatMap_nil, List.nil_append] at h
  exact h.trans (List.Perm.filter nonBlank (List.perm_insertionSort tokLe toks))

/-- Every line the clustering loop ever closes has its items sorted by
`baselineX`. -/
theorem cluster_foldl_sorted (ts : List Tok) :
    ∀ s : ClusterState, (∀ l ∈ s.lines, l.items.Sorted xLe) →
      ∀ l ∈ clusterFinish (ts.foldl clusterStep s), l.items.Sorted xLe := by
  induction ts with
  | nil =>
    intro s hs l hl
    rw [List.foldl_nil] at hl
    unfold clusterFinish at hl
    by_cases h : s.cur = []
    · rw [if_pos h] at hl
      exact hs l hl
    · rw [if_neg h, List.mem_append] at hl
      rcases hl with hl | hl
      · exact hs l hl
      · simp at hl
        subst hl
        exact List.sorted_insertionSort xLe s.cur
  | cons t ts ih =>
    intro s hs l hl
    rw [List.foldl_cons] at hl
    refine ih (clusterStep s t) ?_ l hl
    intro l' hl'
    unfold clusterStep at hl'
    by_cases hblank : t.str.trim = ""
    · rw [if_pos hblank] at hl'
      exact hs l' hl'
    · rw [if_neg hblank] at hl'
      by_cases htol : s.curY = -1 ∨ 4 * (s.curY - t.y) ^ 2 < fontSizeSq t
      · rw [if_pos htol] at hl'
        exact hs l' hl'
      · rw [if_neg htol] at hl'
        simp only [List.mem_append] at hl'
        rcases hl' with hl' | hl'
        · exact hs l' hl'
        · simp at hl'
          subst hl'
          exact List.sorted_insertionSort xLe s.cur

/-- Splitting a list by three mutually exclusive, jointly exhaustive
boolean predicates is a permutation of the list. -/
theorem filter_three_partition {α : Type} (p q r : α → Bool)
    (h : ∀ x, (p x = true ∧ q x = false ∧ r x = false) ∨
      (p x = false ∧ q x = true ∧ r x = false) ∨
      (p x = false ∧ q x = false ∧ r x = true)) :
    ∀ l : List α, l.filter p ++ l.filter q ++ l.filter r ~ l := by
  intro l
  induction l with
  | nil => simp
  | cons x xs ih =>
    rcases h x with ⟨h1, h2, h3⟩ | ⟨h1, h2, h3⟩ | ⟨h1, h2, h3⟩
    · simp only [List.filter_cons, h1, h2, h3, if_true, Bool.false_eq_true, if_false]
      rw [List.cons_append, List.cons_append]
      exact ih.cons x
    · simp only [List.filter_cons, h1, h2, h3, if_true, Bool.false_eq_true, if_false]
      calc xs.filter p ++ (x :: xs.filter q) ++ xs.filter r
          = xs.filter p ++ x :: (xs.filter q ++ xs.filter r) := by
            simp [List.append_assoc]
        _ ~ x :: (xs.filter p ++ (xs.filter q ++ xs.filter r)) := List.perm_middle
        _ = x :: (xs.filter p ++ xs.filter q ++ xs.filter r) := by
            simp [List.append_assoc]
        _ ~ x :: xs := ih.cons x
    · simp only [List.filter_cons, h1, h2, h3, if_true, Bool.false_eq_true, if_false]
      calc xs.filter p ++ xs.filter q ++ (x :: xs.filter r)
          = (xs.filter p ++ xs.filter q) ++ x :: xs.filter r := by
            simp [List.append_assoc]
        _ ~ x :: (xs.filter p ++ xs.filter q ++ xs.filter r) := List.perm_middle
        _ ~ x :: xs := ih.cons x

/-- Flattening a line's blocks recovers exactly that line's token texts. -/
theorem blocksOfLine_texts (items : List Tok) :
    (blocksOfLine items).flatMap blockTexts = items.map Tok.str := by
  cases items with
  | nil => rfl
  | cons h ts =>
    rw [blocksOfLine]
    by_cases hlen : 1 < (columnsOf (h :: ts)).length
    · rw [if_pos hlen]
      simp only [List.flatMap_cons, List.flatMap_nil, List.append_nil, blockTexts]
      rw [List.flatMap_map]
      simp only []
      rw [List.flatMap_def, ← List.map_flatten, columnsOf_flatten]
    · rw [if_neg hlen]
      have hcols := columnsOf_single (l := h :: ts) (by simp) hlen
      simp only [List.flatMap_cons, List.flatMap_nil, List.append_nil, blockTexts]
      rw [hcols]
      rfl

/-- Exclusivity of the region flags for a page of nonnegative height:
every line is exactly one of header, body, footer. -/
theorem region_trichotomy (H : ℚ) (hH : (0 : ℚ) ≤ H) (l : Line) :
    (isHeaderLine H l = true ∧ (!isHeaderLine H l && !isFooterLine H l) = false ∧
      isFooterLine H l = false) ∨
    (isHeaderLine H l = false ∧ (!isHeaderLine H l && !isFooterLine H l) = true ∧
      isFooterLine H l = false) ∨
    (isHeaderLine H l = false ∧ (!isHeaderLine H l && !isFooterLine H l) = false ∧
      isFooterLine H l = true) := by
  by_cases h1 : H * 0.90 < l.y
  · have h2 : ¬ l.y < H * 0.10 := by nlinarith
    left
    simp [isHeaderLine, isFooterLine, h1, h2]
  · by_cases h2 : l.y < H * 0.10
    · right; right
      simp [isHeaderLine, isFooterLine, h1, h2]
    · right; left
      simp [isHeaderLine, isFooterLine, h1, h2]

/-- Multiset conservation of token texts through the whole page
pipeline. -/
theorem pageTexts_perm_aux (H : ℚ) (toks : List Tok) (hH : (0 : ℚ) ≤ H) :
    pageTexts (pageOf H toks) ~ (toks.filter nonBlank).map Tok.str := by
  unfold pageTexts pageOf
  simp only []
  have hline : ∀ ls : List Line,
      (ls.flatMap fun l => blocksOfLine l.items).flatMap blockTexts =
        ls.flatMap fun l => l.items.map Tok.str := by
    intro ls
    rw [List.flatMap_assoc]
    simp only [blocksOfLine_texts]
  rw [hline, hline, hline]
  rw [← List.flatMap_append, ← List.flatMap_append]
  have hpart := filter_three_partition (isHeaderLine H)
    (fun l => !isHeaderLine H l && !isFooterLine H l) (isFooterLine H)
    (region_trichotomy H hH) (linesOf toks)
  refine (List.Perm.flatMap_right _ hpart).trans ?_
  rw [show ((linesOf toks).flatMap fun l => l.items.map Tok.str) =
      (linesToks (linesOf toks)).map Tok.str by
    rw [linesToks, List.map_flatMap]]
  exact List.Perm.map Tok.str (linesOf_toks_perm toks)

/-! Concrete inputs used by the counterexamples and witnesses below. -/

def tokC1P : Tok := { str := "ab", a := 10, b := 0, x := 0, y := 0, width := 4 }

def tokC1C : Tok := { str := "cd", a := 10, b := 0, x := 14, y := 0, width := 4 }

def tokC2A : Tok := { str := "A", a := 20, b := 0, x := 0, y := 100, width := 10 }

def tokC2B : Tok := { str := "B", a := 2, b := 0, x := 0, y := 103, width := 10 }

def tokC2W : Tok := { str := "w", a := 4, b := 0, x := 1, y := 5, width := 2 }

def tokC2T : Tok := { str := "z", a := 4, b := 0, x := 9, y := 50, width := 2 }

def tokC3 : Tok := { str := "c", a := 8, b := 6, x := 2, y := 3, width := 5 }

def tokC4A : Tok := { str := "A", a := 1, b := 0, x := 10, y := 100, width := 5 }

def tokC4B : Tok := { str := "B", a := 1, b := 0, x := 50, y := 104, width := 5 }

def lineC4 : Line := { y := 100, items := [tokC4A] }

def tokC5A : Tok := { str := "He", a := 10, b := 0, x := 0, y := 50, width := 10 }

def tokC5B : Tok := { str := "llo", a := 10, b := 0, x := 10, y := 50, width := 10 }

def tokC5C : Tok := { str := "X", a := 10, b := 0, x := 100, y := 50, width := 5 }

def strHeLlo : String := "He llo"

def tokC6X : Tok := { str := "X", a := 0, b := 0, x := 0, y := 5, width := 3 }

def tokC8 : Tok := { str := "Hi", a := 3, b := 4, x := 7, y := 2, width := 6 }

def tokC9 : Tok := { str := "d", a := 12, b := 0, x := 4, y := 40, width := 8 }

/-! Claim C1 (Column Segmenter threshold). -/

/-- C1 counterexample: the tokens `tokC1P`, `tokC1C` have
`gap = 14 − (0 + 4) = 10`, `charWidth = 4/2 = 2`.  The code splits them
into two columns (`gap > 3·charWidth = 6`), yet the spec's rule
`gap > max(20, 3·charWidth) = max(20, 6)` says no boundary, so the
claimed "exactly when" equivalence is false at this input. -/
theorem columnBoundaryClaimFalse :
    columnsOf [tokC1P, tokC1C] = [[tokC1P], [tokC1C]] ∧
    specColumnBreak tokC1P tokC1C = false := by
  with_unfolding_all decide

/-- C1 amended: the Column Segmenter inserts a boundary between adjacent
tokens exactly when `gap > charWidth × 3` (no absolute 20pt floor), with
`charWidth = prev.width / prev.text.length` when `prev.width > 0` and
`fontSize × 0.5` otherwise, and
`prevEnd = prev.x + (prev.width ≠ 0 ? prev.width : len·charWidth)`
(the `columnBreak` test): the columns of a nonempty line partition it,
adjacent tokens inside one column never satisfy the break test, and the
last token of each column and the first of the next always do; in
particular a pair satisfying the break test lands in different
columns. -/
theorem columnBoundaryCharacterization (l : List Tok) (h : l ≠ []) :
    (columnsOf l).flatten = l ∧
    (∀ c ∈ columnsOf l, c ≠ [] ∧
      List.Chain' (fun a b => columnBreak a b = false) c) ∧
    List.Chain' betweenBreak (columnsOf l) := by
  obtain ⟨t, ts, rfl⟩ := List.exists_cons_of_ne_nil h
  refine ⟨columnsOf_flatten _, ?_⟩
  have hch := columnsAux_chain ts t [t] [] rfl (List.chain'_singleton t)
    (by simp) (by simp)
  rw [columnsOf]
  exact hch

/-- C1 witness: the characterization applied to the two-token line of
the counterexample. -/
theorem columnBoundaryCharacterizationWitness :
    ([tokC1P, tokC1C] : List Tok) ≠ [] ∧
    ((columnsOf [tokC1P, tokC1C]).flatten = [tokC1P, tokC1C] ∧
      (∀ c ∈ columnsOf [tokC1P, tokC1C], c ≠ [] ∧
        List.Chain' (fun a b => columnBreak a b = false) c) ∧
      List.Chain' betweenBreak (columnsOf [tokC1P, tokC1C])) :=
  ⟨by with_unfolding_all decide,
    columnBoundaryCharacterization [tokC1P, tokC1C] (by with_unfolding_all decide)⟩

/-! Claim C2 (Line Clusterer tolerance). -/

/-- C2 counterexample: `tokC2A` (fontSize 20) and `tokC2B` (fontSize 2)
sit 3 apart in `y`.  The claimed tolerance
`max(fontSize_token, fontSize_prev) × 0.5 = 10` exceeds 3, so the claim
says they join one cluster (one Line); the code's tolerance is the
walked token's own `fontSize × 0.5 = 1`, so it closes the cluster and
two Lines come out.  (`|Δy| < max(√s₁,√s₂)·0.5` is exactly
`4·Δy² < max s₁ s₂`.) -/
theorem clusterToleranceClaimFalse :
    (linesOf [tokC2A, tokC2B]).length = 2 ∧
    4 * (tokC2A.y - tokC2B.y) ^ 2 < max (fontSizeSq tokC2A) (fontSizeSq tokC2B) := by
  with_unfolding_all decide

/-- C2 amended: a walked nonblank token joins the current cluster iff
the cluster is empty (`curY = −1` sentinel) or
`|token.y − curY| < token.fontSize × 0.5` — the tolerance uses only the
walked token's own fontSize (encoded `4·(curY − y)² < fontSizeSq`), and
`curY` is the `baselineY` of the most recently added token; on failure
the cluster is closed into a Line re-sorted ascending by `baselineX`
(and that sort really is sorted), and a new cluster starts with the
token. -/
theorem clusterStepCharacterization (s : ClusterState) (t : Tok)
    (hb : t.str.trim ≠ "") :
    ((s.curY = -1 ∨ 4 * (s.curY - t.y) ^ 2 < fontSizeSq t) →
      clusterStep s t = { curY := t.y, cur := s.cur ++ [t], lines := s.lines }) ∧
    (¬ (s.curY = -1 ∨ 4 * (s.curY - t.y) ^ 2 < fontSizeSq t) →
      clusterStep s t = ClusterState.mk t.y [t]
        (s.lines ++ [{ y := s.curY, items := List.insertionSort xLe s.cur }]) ∧
      (List.insertionSort xLe s.cur).Sorted xLe) := by
  constructor
  · intro h
    rw [clusterStep, if_neg hb, if_pos h]
  · intro h
    exact ⟨by rw [clusterStep, if_neg hb, if_neg h],
      List.sorted_insertionSort xLe s.cur⟩

/-- C2 witness: the step characterization at a concrete state and a
concrete far-away token (the close branch fires). -/
theorem clusterStepCharacterizationWitness :
    tokC2T.str.trim ≠ "" ∧
    (((ClusterState.mk 5 [tokC2W] []).curY = -1 ∨
        4 * ((ClusterState.mk 5 [tokC2W] []).curY - tokC2T.y) ^ 2 < fontSizeSq tokC2T) →
      clusterStep (ClusterState.mk 5 [tokC2W] []) tokC2T =
        { curY := tokC2T.y, cur := (ClusterState.mk 5 [tokC2W] []).cur ++ [tokC2T],
          lines := (ClusterState.mk 5 [tokC2W] []).lines }) ∧
    (¬ ((ClusterState.mk 5 [tokC2W] []).curY = -1 ∨
        4 * ((ClusterState.mk 5 [tokC2W] []).curY - tokC2T.y) ^ 2 < fontSizeSq tokC2T) →
      clusterStep (ClusterState.mk 5 [tokC2W] []) tokC2T =
        ClusterState.mk tokC2T.y [tokC2T]
          ((ClusterState.mk 5 [tokC2W] []).lines ++
            [{ y := (ClusterState.mk 5 [tokC2W] []).curY,
               items := List.insertionSort xLe (ClusterState.mk 5 [tokC2W] []).cur }]) ∧
      (List.insertionSort xLe (ClusterState.mk 5 [tokC2W] []).cur).Sorted xLe) :=
  ⟨by with_unfolding_all decide,
    (clusterStepCharacterization (ClusterState.mk 5 [tokC2W] []) tokC2T
      (by with_unfolding_all decide)).1,
    (clusterStepCharacterization (ClusterState.mk 5 [tokC2W] []) tokC2T
      (by with_unfolding_all decide)).2⟩

/-! Claim C3 (token conservation). -/

/-- C3: on a page of nonnegative height, the clustered lines contain
exactly the nonblank input tokens (as a multiset), every line's columns
partition its tokens exactly, and the token texts reachable from all
output blocks are exactly the nonblank input token texts (as a
multiset). -/
theorem tokenConservation (H : ℚ) (toks : List Tok) (hH : (0 : ℚ) ≤ H) :
    linesToks (linesOf toks) ~ toks.filter nonBlank ∧
    (∀ l ∈ linesOf toks, (columnsOf l.items).flatten = l.items) ∧
    pageTexts (pageOf H toks) ~ (toks.filter nonBlank).map Tok.str :=
  ⟨linesOf_toks_perm toks, fun l _ => columnsOf_flatten l.items,
    pageTexts_perm_aux H toks hH⟩

/-- C3 witness: conservation on a concrete one-token page. -/
theorem tokenConservationWitness :
    (0 : ℚ) ≤ 6 ∧
    (linesToks (linesOf [tokC3]) ~ [tokC3].filter nonBlank ∧
      (∀ l ∈ linesOf [tokC3], (columnsOf l.items).flatten = l.items) ∧
      pageTexts (pageOf 6 [tokC3]) ~ ([tokC3].filter nonBlank).map Tok.str) :=
  ⟨by norm_num, tokenConservation 6 [tokC3] (by norm_num)⟩

/-! Claim C4 (ordering). -/

/-- C4 counterexample: `tokC4A` at `y = 100, x = 10` and `tokC4B` at
`y = 104, x = 50` differ by 4 ≤ 5 in `y`, so the page comparator orders
them by `x` (A first); their font size 1 makes the clustering tolerance
0.5, so each becomes its own Line — and the emitted Lines are strictly
increasing in `baselineY`, refuting "strictly non-increasing". -/
theorem lineOrderClaimFalse :
    (linesOf [tokC4A, tokC4B]).map Line.y = [100, 104] ∧ (100 : ℚ) < 104 := by
  with_unfolding_all decide

/-- C4 amended: within every emitted Line the tokens are sorted
non-decreasing in `baselineX` (each closed cluster is re-sorted with the
`a.x − b.x` comparator); the Line sequence itself follows the fuzzy
5pt-descending-`y` page sort and is not in general monotone in
`baselineY` (see the counterexample), and ties in `baselineX` make the
within-line order non-strict. -/
theorem lineTokensSortedByX (toks : List Tok) (l : Line) (hl : l ∈ linesOf toks) :
    l.items.Sorted xLe := by
  unfold linesOf at hl
  exact cluster_foldl_sorted _ _ (by simp) l hl

/-- C4 witness: the first line of the counterexample page is x-sorted. -/
theorem lineTokensSortedByXWitness :
    lineC4 ∈ linesOf [tokC4A, tokC4B] ∧ lineC4.items.Sorted xLe :=
  ⟨by with_unfolding_all decide,
    lineTokensSortedByX [tokC4A, tokC4B] lineC4 (by with_unfolding_all decide)⟩

/-! Claim C5 (grid cell text join). -/

/-- C5 counterexample: the line `[tokC5A, tokC5B, tokC5C]` splits into
two columns `[He, llo]` and `[X]`; the gap between `He` and `llo` is
`10 − (0 + 10) = 0 ≤ 2`, yet the grid cell's text is `"He llo"` — the
code joins cell tokens with an unconditional single space
(`join(' ')`), not with the Paragraph's 2pt word-break rule, so the
claimed "formed the same way as a Paragraph's text" is false here. -/
theorem gridCellJoinClaimFalse :
    (blocksOfLine [tokC5A, tokC5B, tokC5C]).flatMap cellTextsOf =
      [strHeLlo, tokC5C.str] ∧
    tokC5B.x - (tokC5A.x + tokC5A.width) ≤ 2 := by
  with_unfolding_all decide

/-- C5 amended: a line segmented into ≥ 2 columns yields exactly one
GridRow whose cells carry the columns in order, each cell's text being
the column's token texts joined by one unconditional space
(`String.intercalate " "`), each cell's width share `100/columnCount`,
and each cell's font size that of its first token; only single-column
Paragraph text uses the 2pt gap-conditional join. -/
theorem gridCellSimpleJoin (items : List Tok)
    (h2 : 1 < (columnsOf items).length) :
    blocksOfLine items = [Block.gridRow ((columnsOf items).map fun c =>
      { toks := c, text := String.intercalate spaceStr (c.map Tok.str),
        widthShare := 100 / ((columnsOf items).length : ℚ),
        fsq := fontSizeSq (headTok c) })] := by
  cases items with
  | nil =>
    rw [columnsOf] at h2
    simp at h2
  | cons h ts =>
    simp only [blocksOfLine]
    rw [if_pos h2]

/-- C5 witness: the GridRow shape at the counterexample line. -/
theorem gridCellSimpleJoinWitness :
    1 < (columnsOf [tokC5A, tokC5B, tokC5C]).length ∧
    blocksOfLine [tokC5A, tokC5B, tokC5C] =
      [Block.gridRow ((columnsOf [tokC5A, tokC5B, tokC5C]).map fun c =>
        { toks := c, text := String.intercalate spaceStr (c.map Tok.str),
          widthShare := 100 / ((columnsOf [tokC5A, tokC5B, tokC5C]).length : ℚ),
          fsq := fontSizeSq (headTok c) })] :=
  ⟨by with_unfolding_all decide,
    gridCellSimpleJoin [tokC5A, tokC5B, tokC5C] (by with_unfolding_all decide)⟩

/-! Claim C6 (dropping of degenerate font sizes). -/

/-- C6 counterexample: token `tokC6X` has transform entries
`a = b = 0`, so its derived fontSize `√(a² + b²) = 0 ≤ 0`; the claim
says it is dropped and never appears in any output, yet its text is the
whole output of the page. -/
theorem fontSizeDropClaimFalse :
    pageTexts (pageOf 10 [tokC6X]) = [tokC6X.str] ∧ fontSizeSq tokC6X ≤ 0 := by
  with_unfolding_all decide

/-- C6 amended: the code never filters on the derived fontSize — the
only dropped tokens are those with empty or whitespace-only text; every
input token with nonblank text (whatever its fontSize, including ≤ 0)
reaches the output of a page of nonnegative height. -/
theorem nonBlankTokenSurvives (H : ℚ) (toks : List Tok) (t : Tok)
    (hH : (0 : ℚ) ≤ H) (ht : t ∈ toks) (hb : t.str.trim ≠ "") :
    t.str ∈ pageTexts (pageOf H toks) := by
  have hperm := pageTexts_perm_aux H toks hH
  rw [hperm.mem_iff]
  refine List.mem_map_of_mem Tok.str ?_
  rw [List.mem_filter]
  exact ⟨ht, by simpa [nonBlank] using hb⟩

/-- C6 witness: the zero-fontSize token of the counterexample survives
to the output. -/
theorem nonBlankTokenSurvivesWitness :
    (0 : ℚ) ≤ 10 ∧ tokC6X ∈ [tokC6X] ∧ tokC6X.str.trim ≠ "" ∧
    tokC6X.str ∈ pageTexts (pageOf 10 [tokC6X]) :=
  ⟨by norm_num, by simp, by with_unfolding_all decide,
    nonBlankTokenSurvives 10 [tokC6X] tokC6X (by norm_num) (by simp)
      (by with_unfolding_all decide)⟩

/-! Claim C7 (region classification). -/

/-- C7: on a page of positive height, a line is flagged Header iff
`baselineY > 0.90·pageHeight` and Footer iff
`baselineY < 0.10·pageHeight` (Body = neither flag, which is how the
page assembler filters); a line at `0.95·pageHeight` is Header only, one
at `0.05·pageHeight` Footer only, one at `0.50·pageHeight` neither. -/
theorem regionClassification (H : ℚ) (hH : (0 : ℚ) < H) :
    (∀ l : Line, (isHeaderLine H l = true ↔ H * 0.90 < l.y) ∧
      (isFooterLine H l = true ↔ l.y < H * 0.10)) ∧
    (∀ its : List Tok, isHeaderLine H { y := H * 0.95, items := its } = true ∧
      isFooterLine H { y := H * 0.95, items := its } = false) ∧
    (∀ its : List Tok, isFooterLine H { y := H * 0.05, items := its } = true ∧
      isHeaderLine H { y := H * 0.05, items := its } = false) ∧
    (∀ its : List Tok, isHeaderLine H { y := H * 0.50, items := its } = false ∧
      isFooterLine H { y := H * 0.50, items := its } = false) := by
  refine ⟨fun l => ⟨by simp [isHeaderLine], by simp [isFooterLine]⟩, ?_, ?_, ?_⟩ <;>
    intro its <;>
    constructor <;>
    simp [isHeaderLine, isFooterLine] <;>
    nlinarith

/-- C7 witness: the classification at page height 10. -/
theorem regionClassificationWitness :
    (0 : ℚ) < 10 ∧
    ((∀ l : Line, (isHeaderLine 10 l = true ↔ 10 * 0.90 < l.y) ∧
        (isFooterLine 10 l = true ↔ l.y < 10 * 0.10)) ∧
      (∀ its : List Tok, isHeaderLine 10 { y := 10 * 0.95, items := its } = true ∧
        isFooterLine 10 { y := 10 * 0.95, items := its } = false) ∧
      (∀ its : List Tok, isFooterLine 10 { y := 10 * 0.05, items := its } = true ∧
        isHeaderLine 10 { y := 10 * 0.05, items := its } = false) ∧
      (∀ its : List Tok, isHeaderLine 10 { y := 10 * 0.50, items := its } = false ∧
        isFooterLine 10 { y := 10 * 0.50, items := its } = false)) :=
  ⟨by norm_num, regionClassification 10 (by norm_num)⟩

/-! Claim C8 (paragraph font size). -/

/-- C8: a single-column line yields exactly one Paragraph block whose
text is the gap-conditional join of the whole line, whose indent is
`round(firstToken.x × 15)` and whose fontSize is the first token's
fontSize (squared representation of `√(a² + b²)`). -/
theorem paragraphFontSizeFirstToken (h : Tok) (ts : List Tok)
    (h1 : ¬ 1 < (columnsOf (h :: ts)).length) :
    blocksOfLine (h :: ts) =
      [Block.paragraph (h :: ts) (paraText (h :: ts)) (round (h.x * 15))
        (fontSizeSq h)] := by
  have hcols := columnsOf_single (l := h :: ts) (by simp) h1
  simp only [blocksOfLine]
  rw [if_neg h1, hcols]
  rfl

/-- C8 witness: the paragraph emitted from the one-token line
`[tokC8]` carries `fontSizeSq tokC8`. -/
theorem paragraphFontSizeFirstTokenWitness :
    ¬ 1 < (columnsOf [tokC8]).length ∧
    blocksOfLine [tokC8] =
      [Block.paragraph [tokC8] (paraText [tokC8]) (round (tokC8.x * 15))
        (fontSizeSq tokC8)] :=
  ⟨by with_unfolding_all decide,
    paragraphFontSizeFirstToken tokC8 [] (by with_unfolding_all decide)⟩

/-! Claim C9 (determinism / idempotence). -/

/-- C9: the pipeline is a pure function of its input — any two runs on
equal token sequences (same page height) produce equal Page outputs, so
running it twice on identical input yields identical Block sequences. -/
theorem pipelineDeterministic (H : ℚ) (toks1 toks2 : List Tok)
    (h : toks1 = toks2) : pageOf H toks1 = pageOf H toks2 := by
  rw [h]

/-- C9 witness: two runs on the same concrete one-token page agree. -/
theorem pipelineDeterministicWitness :
    ([tokC9] : List Tok) = [tokC9] ∧ pageOf 9 [tokC9] = pageOf 9 [tokC9] :=
  ⟨rfl, pipelineDeterministic 9 [tokC9] [tokC9] rfl⟩

/-! Claim C10 (empty page). -/

/-- C10: a page with zero tokens produces a Page record with empty
header, body and footer block lists, and the (total) pipeline raises no
error on it. -/
theorem emptyPageEmptyBlocks (H : ℚ) : pageOf H [] = Page.mk [] [] [] := rfl

end PdfLayout
